import Mathlib

/-!
Shallow embedding of the schedule-extraction core of `src/bot.py`
(`_norm`, `parse_free_swim_from_xls`, `_start_hour_from_time_line`,
`_filter_evening`) over Lean lists of characters and strings.

Spreadsheet sheets are modelled as `List (List String)` (a grid of raw
cell texts, as produced by `df.fillna("").astype(str)`), a workbook as a
list of such grids, and the Python `raise RuntimeError` at the end of
`parse_free_swim_from_xls` as the `none` case of an `Option` result.

Python's `re` character classes are modelled on the character sets that
the program actually manipulates: `\d` as the ASCII digits, `\s` as the
ASCII whitespace characters, `[А-Яа-я]` as the contiguous Unicode range
U+0410..U+044F, and `\w` (used only through the word boundary `\b`) as
ASCII alphanumerics, underscore and the Cyrillic block U+0400..U+04FF.
`str.lower()` is modelled on ASCII letters and the Cyrillic letters
А..Я / Ё that occur in the marker words.
-/

namespace ArnoldPool

/-- `\s` : whitespace as in Python's `re` on the characters we model. -/
def isWsC (c : Char) : Bool :=
  decide (c = ' ' ∨ c = '\t' ∨ c = '\n' ∨ c.toNat = 13 ∨ c.toNat = 11 ∨ c.toNat = 12)

/-- `\d` : ASCII decimal digit. -/
def isDig (c : Char) : Bool :=
  decide (48 ≤ c.toNat) && decide (c.toNat ≤ 57)

/-- `[А-Яа-я]` : the contiguous codepoint range U+0410..U+044F. -/
def isCyr (c : Char) : Bool :=
  decide (0x410 ≤ c.toNat) && decide (c.toNat ≤ 0x44F)

/-- `\w` (for the `\b` word boundary): ASCII alphanumerics, `_`,
and the Cyrillic block U+0400..U+04FF. -/
def isWordC (c : Char) : Bool :=
  isDig c || decide (65 ≤ c.toNat ∧ c.toNat ≤ 90) ||
  decide (97 ≤ c.toNat ∧ c.toNat ≤ 122) || decide (c = '_') ||
  decide (0x400 ≤ c.toNat ∧ c.toNat ≤ 0x4FF)

/-- `str.lower()` on one character: ASCII A-Z plus Cyrillic А-Я and Ё. -/
def ruLower (c : Char) : Char :=
  if 0x410 ≤ c.toNat ∧ c.toNat ≤ 0x42F then Char.ofNat (c.toNat + 0x20)
  else if c.toNat = 0x401 then Char.ofNat 0x451
  else if 65 ≤ c.toNat ∧ c.toNat ≤ 90 then Char.ofNat (c.toNat + 32)
  else c

/-- `str.lower()` on a whole string. -/
def lowerStr (s : String) : String := ⟨s.data.map ruLower⟩

/-- `s.replace(" ", " ")` on one character. -/
def nbspFix (c : Char) : Char := if c.toNat = 0xA0 then ' ' else c

/-- `str.strip()` : drop whitespace from both ends. -/
def stripWs (l : List Char) : List Char :=
  ((l.dropWhile isWsC).reverse.dropWhile isWsC).reverse

/-- `re.sub(r"(\d{1,2})\.(\d{2})", r"\1:\2", s)` : left-to-right
non-overlapping replacement, the `{1,2}` quantifier greedily trying the
two-digit hour first. -/
def dotFix : List Char → List Char
  | a :: b :: p :: d :: e :: rest =>
    if isDig a && isDig b && decide (p = '.') && isDig d && isDig e then
      a :: b :: ':' :: d :: e :: dotFix rest
    else if isDig a && decide (b = '.') && isDig p && isDig d then
      a :: ':' :: p :: d :: dotFix (e :: rest)
    else a :: dotFix (b :: p :: d :: e :: rest)
  | [a, b, p, d] =>
    if isDig a && decide (b = '.') && isDig p && isDig d then
      [a, ':', p, d]
    else a :: dotFix [b, p, d]
  | a :: rest => a :: dotFix rest
  | [] => []

/-- `re.sub(r"\s+", " ", s)` : collapse every whitespace run to one space. -/
def collapseWs : List Char → List Char
  | [] => []
  | [c] => if isWsC c then [' '] else [c]
  | c :: d :: rest =>
    if isWsC c && isWsC d then collapseWs (d :: rest)
    else (if isWsC c then ' ' else c) :: collapseWs (d :: rest)

/-- `_norm` from `src/bot.py`: non-breaking spaces to spaces, strip,
`08.00 -> 08:00` dot repair, whitespace collapse. -/
def norm (s : String) : String :=
  ⟨collapseWs (dotFix (stripWs (s.data.map nbspFix)))⟩

/-- needle is a leading piece of hay. -/
def leadMatch : List Char → List Char → Bool
  | [], _ => true
  | _ :: _, [] => false
  | a :: as, b :: bs => decide (a = b) && leadMatch as bs

/-- Python's `needle in hay` substring test. -/
def subMatch (needle : List Char) : List Char → Bool
  | [] => leadMatch needle []
  | h :: t => leadMatch needle (h :: t) || subMatch needle t

/-- `needle in hay` on strings. -/
def hasSub (needle hay : String) : Bool := subMatch needle.data hay.data

/-- `date_pat = re.compile(r"^\s*(\d{1,2})\s+([А-Яа-я]+)\s*$")`, used via
`date_pat.match(x)`: optional whitespace, one or two digits, whitespace,
one or more Cyrillic letters, optional whitespace, end of string.
With the greedy bounded quantifier this is equivalent to: the maximal
leading digit run has length 1 or 2, the following maximal runs are a
nonempty whitespace run, a nonempty Cyrillic run, a whitespace run, and
then the string ends. -/
def isDateCell (s : String) : Bool :=
  let l0 := s.data.dropWhile isWsC
  let ds := l0.takeWhile isDig
  let l1 := (l0.dropWhile isDig)
  let ws := l1.takeWhile isWsC
  let l2 := l1.dropWhile isWsC
  let cy := l2.takeWhile isCyr
  let l3 := (l2.dropWhile isCyr).dropWhile isWsC
  (decide (ds.length = 1) || decide (ds.length = 2)) &&
    decide (1 ≤ ws.length) && decide (1 ≤ cy.length) && l3.isEmpty

/-- The part after the letter `с` of
`time_pat = re.compile(r"\bс\s*\d{1,2}[:.]\d{2}", re.IGNORECASE)` and of
the extraction pattern `(с\s*\d{1,2}[:.]\d{2}.*)$`: whitespace, a digit
run of length 1 or 2 (a longer run makes both greedy alternatives fail),
a `:` or `.` separator, then two digits. -/
def timeTail (l : List Char) : Bool :=
  let l1 := l.dropWhile isWsC
  let ds := l1.takeWhile isDig
  let l2 := l1.dropWhile isDig
  (decide (ds.length = 1) || decide (ds.length = 2)) &&
    (match l2 with
     | p :: d :: e :: _ => decide (p = ':' ∨ p = '.') && isDig d && isDig e
     | _ => false)

/-- `time_pat.search(low)`: is there a position with a word boundary
before a letter `с`/`С` whose tail matches `\s*\d{1,2}[:.]\d{2}`?
`prev` is the character before the scan position (`none` at the start). -/
def timePatSearch (prev : Option Char) : List Char → Bool
  | [] => false
  | c :: cs =>
    if (c = 'с' ∨ c = 'С') ∧ ¬ (prev.any isWordC = true) ∧ timeTail cs = true
    then true
    else timePatSearch (some c) cs

/-- `re.search(r"(с\s*\d{1,2}[:.]\d{2}.*)$", c, re.IGNORECASE)` and
`m.group(1)`: the suffix of the cell starting at the leftmost `с`/`С`
that begins a time range (no word boundary in this pattern). -/
def extractTime : List Char → Option (List Char)
  | [] => none
  | c :: cs =>
    if (c = 'с' ∨ c = 'С') ∧ timeTail cs = true then some (c :: cs)
    else extractTime cs

/-- After a boundary-`с` of `re.sub(r"\bс\s*(\d)\:", r"с 0\1:", t)`:
skip whitespace, then require a single digit immediately followed by
`:`; return that digit and the rest after the `:`. -/
def padAfter : List Char → Option (Char × List Char)
  | c :: p :: rest =>
    if isWsC c then padAfter (p :: rest)
    else if isDig c = true ∧ p = ':' then some (c, rest) else none
  | [_] => none
  | [] => none

theorem padAfter_shrink : ∀ (cs : List Char) (d : Char) (rest : List Char),
    padAfter cs = some (d, rest) → rest.length < cs.length := by
  intro cs
  induction cs with
  | nil => intro d rest h; simp [padAfter] at h
  | cons c cs ih =>
    intro d rest h
    cases cs with
    | nil => simp [padAfter] at h
    | cons p rest' =>
      simp only [padAfter] at h
      by_cases hws : isWsC c
      · rw [if_pos hws] at h
        have := ih d rest h
        simp at this ⊢; omega
      · rw [if_neg hws] at h
        by_cases hc : isDig c = true ∧ p = ':'
        · rw [if_pos hc] at h
          have : rest' = rest := by
            have := Option.some.inj h
            exact congrArg Prod.snd this
          subst this
          simp; omega
        · rw [if_neg hc] at h; exact absurd h (by simp)

/-- The scan of `re.sub(r"\bс\s*(\d)\:", r"с 0\1:", t)` : every
(case-sensitive) boundary-`с` followed by whitespace, one digit and `:`
is rewritten to `с 0<digit>:`; scanning resumes after the consumed `:`.
Each step consumes at least one input character, so running with
`fuel = length of the input` (see `padFix`) never exhausts the fuel;
the fuel only makes the recursion structural. -/
def padFuel : Nat → Option Char → List Char → List Char
  | 0, _, l => l
  | _ + 1, _, [] => []
  | fuel + 1, prev, c :: cs =>
    if c = 'с' ∧ ¬ (prev.any isWordC = true) then
      match padAfter cs with
      | some (d, rest) => 'с' :: ' ' :: '0' :: d :: ':' :: padFuel fuel (some ':') rest
      | none => c :: padFuel fuel (some c) cs
    else c :: padFuel fuel (some c) cs

def padFix (prev : Option Char) (l : List Char) : List Char :=
  padFuel l.length prev l

/-- The hour-padding substitution on a whole string. -/
def padFixStr (s : String) : String := ⟨padFix none s.data⟩

/-- The classifier's current category (`mode` in the Python loop);
`Option Mode` models `None / "free" / "sanitary_time" / "sanitary_day"`. -/
inductive Mode where
  | free
  | sanitaryTime
  | sanitaryDay
deriving DecidableEq

/-- One day's three categorized sequences of time ranges. -/
structure DaySched where
  free : List String
  sanitary_time : List String
  sanitary_day : List String
deriving DecidableEq

def emptySched : DaySched := ⟨[], [], []⟩

/-- `local[key][mode].append(t)`. -/
def pushMode (d : DaySched) (m : Mode) (t : String) : DaySched :=
  match m with
  | .free => { d with free := d.free ++ [t] }
  | .sanitaryTime => { d with sanitary_time := d.sanitary_time ++ [t] }
  | .sanitaryDay => { d with sanitary_day := d.sanitary_day ++ [t] }

/-- The Cyrillic marker substrings of `src/bot.py`. -/
def kwFam : String := "семейное"

def kwSanDay : String := "санитарный день"

def kwSan : String := "санитар"

def kwFree : String := "свободное"

/-- The inline extraction shared by the marker branches:
`m = re.search(r"(с\s*\d{1,2}[:.]\d{2}.*)$", c, flags=re.IGNORECASE)`,
and on success `_norm(m.group(1))` is appended. -/
def inlineEmit (d : DaySched) (m : Mode) (c : String) : DaySched :=
  match extractTime c.data with
  | some g => pushMode d m (norm ⟨g⟩)
  | none => d

/-- One iteration of the `for c in col_cells` loop of
`parse_free_swim_from_xls` (src/bot.py lines 133-173): the state is the
pair of the current `mode` and the per-day accumulator. -/
def classifyStep (st : Option Mode × DaySched) (c : String) : Option Mode × DaySched :=
  if c = "" then st
  else
    let low := lowerStr c
    if hasSub kwFam low then st
    else if hasSub kwSanDay low then
      (some Mode.sanitaryDay, inlineEmit st.2 Mode.sanitaryDay c)
    else if hasSub kwSan low then
      (some Mode.sanitaryTime, inlineEmit st.2 Mode.sanitaryTime c)
    else if hasSub kwFree low then
      (some Mode.free, inlineEmit st.2 Mode.free c)
    else if timePatSearch none low.data then
      match st.1 with
      | some m =>
        match extractTime c.data with
        | some g => (st.1, pushMode st.2 m (padFixStr (norm ⟨g⟩)))
        | none => st
      | none => st
    else st

/-- The `seen` set / `cleaned` list deduplication loop
(src/bot.py lines 175-183). -/
def dedupGo (seen : List String) : List String → List String
  | [] => []
  | t :: ts => if t ∈ seen then dedupGo seen ts else t :: dedupGo (t :: seen) ts

def dedupFirst (l : List String) : List String := dedupGo [] l

/-- The whole per-day-column pass: fold the classifier over the cells,
then deduplicate each of the three sequences preserving order. -/
def buildDay (cells : List String) : DaySched :=
  let d := (cells.foldl classifyStep (none, emptySched)).2
  ⟨dedupFirst d.free, dedupFirst d.sanitary_time, dedupFirst d.sanitary_day⟩

/-- `DAYS` from `src/bot.py`. -/
def DAYS : List String :=
  ["Понедельник", "Вторник", "Среда", "Четверг", "Пятница", "Суббота", "Воскресенье"]

/-- The per-sheet schedule: Python's insertion-ordered dict
`{key: {"free": ..., "sanitary_time": ..., "sanitary_day": ...}}`. -/
abbrev WeekSchedule := List (String × DaySched)

/-- Number of cells of a (raw) row whose normalization matches the date
pattern: `hits = sum(1 for x in row if date_pat.match(x))`. -/
def rowHits (r : List String) : Nat := (r.map norm).countP isDateCell

/-- The `for i in range(min(len(df), 60))` scan: first row index, among
the first 60 rows, whose normalized cells give at least 3 date matches. -/
def findDateRowAux (i : Nat) : List (List String) → Option Nat
  | [] => none
  | r :: rs =>
    if i < 60 then
      (if 3 ≤ rowHits r then some i else findDateRowAux (i + 1) rs)
    else none

def findDateRow (g : List (List String)) : Option Nat := findDateRowAux 0 g

/-- `[idx for idx, cell in enumerate(header_dates) if date_pat.match(cell)]`. -/
def idxWhereAux (p : String → Bool) (i : Nat) : List String → List Nat
  | [] => []
  | s :: ss => if p s then i :: idxWhereAux p (i + 1) ss else idxWhereAux p (i + 1) ss

def idxWhere (p : String → Bool) (l : List String) : List Nat := idxWhereAux p 0 l

/-- `for j, col_idx in enumerate(day_cols[:7])`: build one `(key, DaySched)`
entry per retained column; `j` is the running weekday index. -/
def mkWeekAux (header : List String) (body : List (List String)) (j : Nat) :
    List Nat → WeekSchedule
  | [] => []
  | col :: cols =>
    (DAYS.getD j "" ++ " – " ++ header.getD col "",
      buildDay (body.map (fun row => norm (row.getD col "")))) ::
        mkWeekAux header body (j + 1) cols

def mkWeek (header : List String) (cols : List Nat) (body : List (List String)) :
    WeekSchedule :=
  mkWeekAux header body 0 cols

/-- One sheet's pass of `parse_free_swim_from_xls`: locate the date
header row (else the sheet is skipped, modelled as `none`), collect the
day columns (first 7), and build each day from the cells below the
header row. -/
def parseSheet (g : List (List String)) : Option WeekSchedule :=
  match findDateRow g with
  | none => none
  | some i =>
    let header := (g.getD i []).map norm
    let dayCols := idxWhere isDateCell header
    if dayCols = [] then none
    else some (mkWeek header (dayCols.take 7) (g.drop (i + 1)))

/-- `score = sum(1 for v in local.values() if v["free"] or ...)`. -/
def sheetScore (w : WeekSchedule) : Nat :=
  w.countP fun kv =>
    decide (kv.2.free ≠ [] ∨ kv.2.sanitary_time ≠ [] ∨ kv.2.sanitary_day ≠ [])

/-- The `best / best_score` update: a skipped sheet leaves the
accumulator unchanged; a parsed sheet replaces it iff its score is
strictly greater (`if score > best_score`). -/
def selectStep (acc : Option WeekSchedule × Int) (res : Option WeekSchedule) :
    Option WeekSchedule × Int :=
  match res with
  | none => acc
  | some w => if (sheetScore w : Int) > acc.2 then (some w, (sheetScore w : Int)) else acc

/-- `parse_free_swim_from_xls` over a workbook given as a list of sheet
grids: run every sheet, keep the best-scoring result (`best = {}`,
`best_score = -1` initially), and fail (`none`, the Python
`raise RuntimeError`) when `not best` at the end. -/
def parse_free_swim_from_xls (grids : List (List (List String))) : Option WeekSchedule :=
  match ((grids.map parseSheet).foldl selectStep (none, (-1 : Int))).1 with
  | none => none
  | some w => if w = [] then none else some w

/-- `EVENING_FROM_HOUR` from `src/bot.py`. -/
def EVENING_FROM_HOUR : Nat := 18

/-- `int(m.group(1))` for a digit run. -/
def digitsVal (ds : List Char) : Nat :=
  ds.foldl (fun n c => n * 10 + (c.toNat - 48)) 0

/-- The tail of `re.search(r"\bс\s*(\d{1,2})\s*[:.]\s*(\d{2})", line)`
after the letter `с`: whitespace, a digit run of length 1 or 2 (longer
runs fail both greedy alternatives), whitespace, `:` or `.`, whitespace,
two digits; on success the value of the hour digits. -/
def hourTail (l : List Char) : Option Nat :=
  let l1 := l.dropWhile isWsC
  let ds := l1.takeWhile isDig
  let l2 := (l1.dropWhile isDig).dropWhile isWsC
  if decide (ds.length = 1) || decide (ds.length = 2) then
    match l2 with
    | p :: rest =>
      if p = ':' ∨ p = '.' then
        match rest.dropWhile isWsC with
        | d :: e :: _ => if isDig d && isDig e then some (digitsVal ds) else none
        | _ => none
      else none
    | [] => none
  else none

/-- The scan of `_start_hour_from_time_line`: leftmost `с`/`С` with a
word boundary before it whose tail matches; `prev` is the previous
character. -/
def startHourGo (prev : Option Char) : List Char → Option Nat
  | [] => none
  | c :: cs =>
    if (c = 'с' ∨ c = 'С') ∧ ¬ (prev.any isWordC = true) then
      match hourTail cs with
      | some h => some h
      | none => startHourGo (some c) cs
    else startHourGo (some c) cs

/-- `_start_hour_from_time_line` from `src/bot.py`. -/
def start_hour_from_time_line (line : String) : Option Nat :=
  startHourGo none line.data

/-- `_filter_evening` with the threshold made explicit. -/
def filterEveningAt (thr : Nat) : List String → List String
  | [] => []
  | t :: ts =>
    match start_hour_from_time_line t with
    | some h => if thr ≤ h then t :: filterEveningAt thr ts else filterEveningAt thr ts
    | none => filterEveningAt thr ts

/-- `_filter_evening` from `src/bot.py` (threshold `EVENING_FROM_HOUR`). -/
def filter_evening (times : List String) : List String :=
  filterEveningAt EVENING_FROM_HOUR times

/-- The Evening Filter lifted to a whole schedule, as `build_message_html`
applies `_filter_evening` to each category of each day. -/
def filterEveningSched (thr : Nat) (w : WeekSchedule) : WeekSchedule :=
  w.map fun kv =>
    (kv.1, ⟨filterEveningAt thr kv.2.free, filterEveningAt thr kv.2.sanitary_time,
      filterEveningAt thr kv.2.sanitary_day⟩)

/-- The retain predicate of `_filter_evening`:
`h is not None and h >= EVENING_FROM_HOUR`, with the threshold explicit. -/
def keepEvening (thr : Nat) (t : String) : Bool :=
  match start_hour_from_time_line t with
  | some h => decide (thr ≤ h)
  | none => false

/-! ### Concrete workbooks used to exercise the theorems -/

/-- A sheet whose first row is a valid date header (3 date cells) with
nothing below it: every day parses to three empty sequences. -/
def gridEmptyDays : List (List String) :=
  [["16 мая", "17 мая", "18 мая"]]

/-- A sheet with no date-header row at all. -/
def gridNoHeader : List (List String) :=
  [["привет", "мир"], ["расписание"]]

/-- A sheet that parses to five populated days (score 5). -/
def gridFive : List (List String) :=
  [["2 марта", "3 марта", "4 марта", "5 марта", "6 марта"],
   ["свободное плавание", "свободное плавание", "свободное плавание",
    "свободное плавание", "свободное плавание"],
   ["с 19:00 до 22:00", "с 19:00 до 22:00", "с 19:00 до 22:00",
    "с 19:00 до 22:00", "с 19:00 до 22:00"]]

/-- A sheet that parses to three populated days (score 3). -/
def gridThree : List (List String) :=
  [["10 мая", "11 мая", "12 мая"],
   ["свободное плавание", "свободное плавание", "свободное плавание"],
   ["с 19:00 до 22:00", "с 19:00 до 22:00", "с 19:00 до 22:00"]]

/-- The schedule `parseSheet gridFive` evaluates to. -/
def weekFive : WeekSchedule :=
  [("Понедельник – 2 марта", ⟨["с 19:00 до 22:00"], [], []⟩),
   ("Вторник – 3 марта", ⟨["с 19:00 до 22:00"], [], []⟩),
   ("Среда – 4 марта", ⟨["с 19:00 до 22:00"], [], []⟩),
   ("Четверг – 5 марта", ⟨["с 19:00 до 22:00"], [], []⟩),
   ("Пятница – 6 марта", ⟨["с 19:00 до 22:00"], [], []⟩)]

/-- The schedule `parseSheet gridThree` evaluates to. -/
def weekThree : WeekSchedule :=
  [("Понедельник – 10 мая", ⟨["с 19:00 до 22:00"], [], []⟩),
   ("Вторник – 11 мая", ⟨["с 19:00 до 22:00"], [], []⟩),
   ("Среда – 12 мая", ⟨["с 19:00 до 22:00"], [], []⟩)]

/-- The schedule `parse_free_swim_from_xls [gridEmptyDays]` returns:
three days, all of them fully empty. -/
def weekEmptyDays : WeekSchedule :=
  [("Понедельник – 16 мая", ⟨[], [], []⟩),
   ("Вторник – 17 мая", ⟨[], [], []⟩),
   ("Среда – 18 мая", ⟨[], [], []⟩)]

/-- A family-session cell (uppercase marker, with an inline time). -/
def famCell : String := "СЕМЕЙНОЕ плавание с 19:00 до 20:00"

/-- A nonempty day accumulator, to exercise state preservation. -/
def schedX : DaySched := ⟨["с 10:00 до 11:00"], [], []⟩

/-- A cell containing the family marker together with both sanitary
markers and an inline time range. -/
def sanDayFamCell : String := "семейное санитарный день с 10:00 до 11:00"

/-- A sanitary-day marker cell with an inline time range. -/
def sanDayCell : String := "Санитарный день с 10:00 до 11:00"

/-- A free-swim marker cell with an inline single-digit-hour time. -/
def freeInlineCell : String := "Свободное плавание с 8:00 до 9:00"

/-- A time line with an out-of-range start hour. -/
def timeLine99 : String := "с 99:00 до 23:00"

/-- An evening time line. -/
def timeLine2015 : String := "с 20:15 до 22:45"

/-! ### Character-level helper facts -/

theorem isDig_bounds {c : Char} (h : isDig c = true) : 48 ≤ c.toNat ∧ c.toNat ≤ 57 := by
  simp [isDig] at h
  exact h

theorem isDig_notWs {c : Char} (h : isDig c = true) : isWsC c = false := by
  have hb := isDig_bounds h
  simp [isWsC]
  refine ⟨?_, ?_, ?_, ?_, ?_, ?_⟩ <;> intro e <;> first
    | (subst e; revert hb; decide)
    | omega

theorem isDig_ruLower {c : Char} (h : isDig c = true) : ruLower c = c := by
  have hb := isDig_bounds h
  unfold ruLower
  rw [if_neg (by omega), if_neg (by omega), if_neg (by omega)]

theorem isDig_nbsp {c : Char} (h : isDig c = true) : nbspFix c = c := by
  have hb := isDig_bounds h
  unfold nbspFix
  rw [if_neg (by omega)]

theorem isDig_ne_of {c x : Char} (h : isDig c = true) (hx : isDig x = false) : c ≠ x := by
  intro e
  rw [e, hx] at h
  cases h

theorem ruLower_sl : ruLower 'с' = 'с' := rfl

theorem ruLower_sp : ruLower ' ' = ' ' := rfl

theorem ruLower_co : ruLower ':' = ':' := rfl

theorem isWsC_sp : isWsC ' ' = true := rfl

theorem isWsC_sl : isWsC 'с' = false := rfl

theorem isWsC_co : isWsC ':' = false := rfl

theorem isDig_sl : isDig 'с' = false := rfl

theorem isDig_sp : isDig ' ' = false := rfl

theorem isDig_co : isDig ':' = false := rfl

theorem isWordC_sl : isWordC 'с' = true := rfl

theorem isWordC_sp : isWordC ' ' = false := rfl

theorem isWordC_co : isWordC ':' = false := rfl

theorem nbsp_sl : nbspFix 'с' = 'с' := rfl

theorem nbsp_sp : nbspFix ' ' = ' ' := rfl

theorem nbsp_co : nbspFix ':' = ':' := rfl

theorem mkStr_ne_nil (c : Char) (cs : List Char) : (⟨c :: cs⟩ : String) ≠ "" := by
  intro e
  have : (⟨c :: cs⟩ : String).data = "".data := by rw [e]
  simp at this

/-! ### Deduplication lemmas -/

theorem dedupGo_sublist : ∀ (l seen : List String), List.Sublist (dedupGo seen l) l := by
  intro l
  induction l with
  | nil => intro seen; simp [dedupGo]
  | cons t ts ih =>
    intro seen
    by_cases h : t ∈ seen
    · simpa [dedupGo, h] using List.Sublist.cons t (ih seen)
    · simpa [dedupGo, h] using List.Sublist.cons₂ t (ih (t :: seen))

theorem mem_dedupGo : ∀ (l seen : List String) (x : String),
    x ∈ dedupGo seen l ↔ x ∈ l ∧ x ∉ seen := by
  intro l
  induction l with
  | nil => intro seen x; simp [dedupGo]
  | cons t ts ih =>
    intro seen x
    by_cases h : t ∈ seen
    · simp only [dedupGo, if_pos h, ih, List.mem_cons]
      constructor
      · rintro ⟨hx, hs⟩; exact ⟨Or.inr hx, hs⟩
      · rintro ⟨hx | hx, hs⟩
        · exact absurd (hx ▸ h) hs
        · exact ⟨hx, hs⟩
    · simp only [dedupGo, if_neg h, List.mem_cons, ih]
      constructor
      · rintro (rfl | ⟨hx, hs⟩)
        · exact ⟨Or.inl rfl, h⟩
        · exact ⟨Or.inr hx, fun hm => hs (Or.inr hm)⟩
      · rintro ⟨rfl | hx, hs⟩
        · exact Or.inl rfl
        · by_cases hxt : x = t
          · exact Or.inl hxt
          · refine Or.inr ⟨hx, fun hm => ?_⟩
            rcases hm with rfl | hmem
            · exact hxt rfl
            · exact hs hmem

theorem dedupGo_nodup : ∀ (l seen : List String), (dedupGo seen l).Nodup := by
  intro l
  induction l with
  | nil => intro seen; simp [dedupGo]
  | cons t ts ih =>
    intro seen
    by_cases h : t ∈ seen
    · simpa [dedupGo, h] using ih seen
    · simp only [dedupGo, if_neg h]
      refine List.nodup_cons.2 ⟨fun hm => ?_, ih (t :: seen)⟩
      exact ((mem_dedupGo ts (t :: seen) t).1 hm).2 (List.mem_cons_self t seen)

theorem dedupFirst_nodup (l : List String) : (dedupFirst l).Nodup :=
  dedupGo_nodup l []

theorem dedupGo_dup_drop : ∀ (l1 : List String) (seen l2 : List String) (t : String),
    (t ∈ seen ∨ t ∈ l1) →
    dedupGo seen (l1 ++ t :: l2) = dedupGo seen (l1 ++ l2) := by
  intro l1
  induction l1 with
  | nil =>
    intro seen l2 t ht
    rcases ht with ht | ht
    · simp [dedupGo, ht]
    · simp at ht
  | cons a l1 ih =>
    intro seen l2 t ht
    by_cases ha : a ∈ seen
    · simp only [List.cons_append, dedupGo, if_pos ha]
      refine ih seen l2 t ?_
      rcases ht with ht | ht
      · exact Or.inl ht
      · rcases List.mem_cons.1 ht with rfl | ht
        · exact Or.inl ha
        · exact Or.inr ht
    · simp only [List.cons_append, dedupGo, if_neg ha]
      refine congrArg (List.cons a) (ih (a :: seen) l2 t ?_)
      rcases ht with ht | ht
      · exact Or.inl (List.mem_cons_of_mem _ ht)
      · rcases List.mem_cons.1 ht with rfl | ht
        · exact Or.inl (List.mem_cons_self _ _)
        · exact Or.inr ht

/-! ### Evening filter lemmas -/

theorem filterEveningAt_eq_filter (thr : Nat) :
    ∀ l : List String, filterEveningAt thr l = l.filter (keepEvening thr) := by
  intro l
  induction l with
  | nil => rfl
  | cons t ts ih =>
    cases hsh : start_hour_from_time_line t with
    | none => simp [filterEveningAt, List.filter, keepEvening, hsh, ih]
    | some h =>
      by_cases hth : thr ≤ h
      · simp [filterEveningAt, List.filter, keepEvening, hsh, hth, ih]
      · simp [filterEveningAt, List.filter, keepEvening, hsh, hth, ih]

theorem filterEveningAt_idem (thr : Nat) (l : List String) :
    filterEveningAt thr (filterEveningAt thr l) = filterEveningAt thr l := by
  simp [filterEveningAt_eq_filter, List.filter_filter]

/-! ### Day-column index lemmas -/

theorem idxWhereAux_length (p : String → Bool) :
    ∀ (l : List String) (i : Nat), (idxWhereAux p i l).length = l.countP p := by
  intro l
  induction l with
  | nil => intro i; simp [idxWhereAux]
  | cons s ss ih =>
    intro i
    by_cases h : p s
    · simp [idxWhereAux, h, List.countP_cons, ih]
    · simp [idxWhereAux, h, List.countP_cons, ih]

theorem mem_idxWhereAux (p : String → Bool) :
    ∀ (l : List String) (i k : Nat),
      k ∈ idxWhereAux p i l ↔ ∃ j, k = i + j ∧ j < l.length ∧ p (l.getD j "") = true := by
  intro l
  induction l with
  | nil => intro i k; simp [idxWhereAux]
  | cons s ss ih =>
    intro i k
    constructor
    · intro hk
      by_cases h : p s
      · simp only [idxWhereAux, if_pos h] at hk
        rcases List.mem_cons.1 hk with rfl | hk
        · exact ⟨0, by simp [h]⟩
        · obtain ⟨j, rfl, hj, hp⟩ := (ih (i + 1) k).1 hk
          exact ⟨j + 1, by omega, by simpa using hj, by simpa using hp⟩
      · simp only [idxWhereAux, if_neg h] at hk
        obtain ⟨j, rfl, hj, hp⟩ := (ih (i + 1) k).1 hk
        exact ⟨j + 1, by omega, by simpa using hj, by simpa using hp⟩
    · rintro ⟨j, rfl, hj, hp⟩
      cases j with
      | zero =>
        simp only [List.getD_cons_zero] at hp
        simp [idxWhereAux, hp]
      | succ j =>
        simp only [List.getD_cons_succ] at hp
        by_cases h : p s
        · simp only [idxWhereAux, if_pos h]
          refine List.mem_cons_of_mem _ ((ih (i + 1) _).2 ⟨j, by omega, by simpa using hj, hp⟩)
        · simp only [idxWhereAux, if_neg h]
          exact (ih (i + 1) _).2 ⟨j, by omega, by simpa using hj, hp⟩

theorem idxWhereAux_lb (p : String → Bool) :
    ∀ (l : List String) (i k : Nat), k ∈ idxWhereAux p i l → i ≤ k := by
  intro l
  induction l with
  | nil => intro i k h; simp [idxWhereAux] at h
  | cons s ss ih =>
    intro i k h
    by_cases hp : p s
    · simp only [idxWhereAux, if_pos hp] at h
      rcases List.mem_cons.1 h with rfl | h
      · exact Nat.le_refl _
      · exact Nat.le_of_succ_le (ih (i + 1) k h)
    · simp only [idxWhereAux, if_neg hp] at h
      exact Nat.le_of_succ_le (ih (i + 1) k h)

theorem idxWhereAux_sorted (p : String → Bool) :
    ∀ (l : List String) (i : Nat), List.Pairwise (· < ·) (idxWhereAux p i l) := by
  intro l
  induction l with
  | nil => intro i; simp [idxWhereAux]
  | cons s ss ih =>
    intro i
    by_cases hp : p s
    · simp only [idxWhereAux, if_pos hp]
      refine List.pairwise_cons.2 ⟨fun y hy => ?_, ih (i + 1)⟩
      exact Nat.lt_of_succ_le (idxWhereAux_lb p ss (i + 1) y hy)
    · simp only [idxWhereAux, if_neg hp]
      exact ih (i + 1)

/-! ### Date-header locator lemmas -/

theorem findDateRowAux_some :
    ∀ (rs : List (List String)) (i k : Nat), findDateRowAux i rs = some k →
      ∃ j, k = i + j ∧ j < rs.length ∧ k < 60 ∧ 3 ≤ rowHits (rs.getD j []) ∧
        ∀ m, m < j → rowHits (rs.getD m []) < 3 := by
  intro rs
  induction rs with
  | nil => intro i k h; simp [findDateRowAux] at h
  | cons r rest ih =>
    intro i k h
    simp only [findDateRowAux] at h
    by_cases hi : i < 60
    · rw [if_pos hi] at h
      by_cases hh : 3 ≤ rowHits r
      · rw [if_pos hh] at h
        have : i = k := Option.some.inj h
        subst this
        exact ⟨0, by omega, by simp, hi, by simpa using hh, fun m hm => by omega⟩
      · rw [if_neg hh] at h
        obtain ⟨j, rfl, hj, hk, hhit, hprev⟩ := ih (i + 1) k h
        refine ⟨j + 1, by omega, by simpa using hj, hk, by simpa using hhit, ?_⟩
        intro m hm
        cases m with
        | zero => simpa using Nat.lt_of_not_le hh
        | succ m => simpa using hprev m (by omega)
    · rw [if_neg hi] at h
      cases h

theorem findDateRowAux_none :
    ∀ (rs : List (List String)) (i : Nat), findDateRowAux i rs = none →
      ∀ j, j < rs.length → i + j < 60 → rowHits (rs.getD j []) < 3 := by
  intro rs
  induction rs with
  | nil => intro i h j hj; simp at hj
  | cons r rest ih =>
    intro i h j hj hb
    simp only [findDateRowAux] at h
    by_cases hi : i < 60
    · rw [if_pos hi] at h
      by_cases hh : 3 ≤ rowHits r
      · rw [if_pos hh] at h; cases h
      · rw [if_neg hh] at h
        cases j with
        | zero => simpa using Nat.lt_of_not_le hh
        | succ j => simpa using ih (i + 1) h j (by simpa using hj) (by omega)
    · omega

/-! ### Per-sheet parsing lemmas -/

theorem rowHits_eq_countP (r : List String) :
    rowHits r = (r.map norm).countP isDateCell := rfl

theorem parseSheet_of_header {g : List (List String)} {i : Nat}
    (h : findDateRow g = some i) :
    parseSheet g =
      some (mkWeek ((g.getD i []).map norm)
        ((idxWhere isDateCell ((g.getD i []).map norm)).take 7) (g.drop (i + 1))) := by
  have hhits : 3 ≤ rowHits (g.getD i []) := by
    obtain ⟨j, hk, hj, _, hhit, _⟩ := findDateRowAux_some g 0 i h
    have : j = i := by omega
    subst this
    exact hhit
  have hlen : 3 ≤ (idxWhere isDateCell ((g.getD i []).map norm)).length := by
    rw [idxWhere, idxWhereAux_length]
    rw [rowHits_eq_countP] at hhits
    exact hhits
  have hne : idxWhere isDateCell ((g.getD i []).map norm) ≠ [] := by
    intro he
    rw [he] at hlen
    simp at hlen
  unfold parseSheet
  rw [h]
  exact if_neg hne

theorem parseSheet_none_iff (g : List (List String)) :
    parseSheet g = none ↔ findDateRow g = none := by
  constructor
  · intro h
    cases hf : findDateRow g with
    | none => rfl
    | some i =>
      rw [parseSheet_of_header hf] at h
      cases h
  · intro h
    simp [parseSheet, h]

theorem mkWeekAux_ne_nil (header : List String) (body : List (List String))
    (j : Nat) (c : Nat) (cols : List Nat) :
    mkWeekAux header body j (c :: cols) ≠ [] := by
  simp [mkWeekAux]

theorem parseSheet_some_ne_nil {g : List (List String)} {w : WeekSchedule}
    (h : parseSheet g = some w) : w ≠ [] := by
  cases hf : findDateRow g with
  | none => rw [(parseSheet_none_iff g).2 hf] at h; cases h
  | some i =>
    rw [parseSheet_of_header hf] at h
    have hw := Option.some.inj h
    subst hw
    have hhits : 3 ≤ rowHits (g.getD i []) := by
      obtain ⟨j, hk, hj, _, hhit, _⟩ := findDateRowAux_some g 0 i hf
      have : j = i := by omega
      subst this
      exact hhit
    have hlen : 3 ≤ (idxWhere isDateCell ((g.getD i []).map norm)).length := by
      rw [idxWhere, idxWhereAux_length]
      rw [rowHits_eq_countP] at hhits
      exact hhits
    cases he : idxWhere isDateCell ((g.getD i []).map norm) with
    | nil => rw [he] at hlen; simp at hlen
    | cons a l =>
      rw [mkWeek]
      have ht : List.take 7 (a :: l) = a :: List.take 6 l := rfl
      rw [ht]
      exact mkWeekAux_ne_nil _ _ _ _ _

theorem mkWeekAux_len (header : List String) (body : List (List String)) :
    ∀ (cols : List Nat) (j : Nat), (mkWeekAux header body j cols).length = cols.length := by
  intro cols
  induction cols with
  | nil => intro j; rfl
  | cons c cs ih => intro j; simp [mkWeekAux, ih]

theorem parseSheet_len_le {g : List (List String)} {w : WeekSchedule}
    (h : parseSheet g = some w) : w.length ≤ 7 := by
  cases hf : findDateRow g with
  | none => rw [(parseSheet_none_iff g).2 hf] at h; cases h
  | some i =>
    rw [parseSheet_of_header hf] at h
    have hw := Option.some.inj h
    subst hw
    rw [mkWeek, mkWeekAux_len]
    simpa using List.length_take_le 7 _

theorem mem_mkWeekAux (header : List String) (body : List (List String)) :
    ∀ (cols : List Nat) (j : Nat) (e : String × DaySched),
      e ∈ mkWeekAux header body j cols →
      ∃ col, e.2 = buildDay (body.map (fun row => norm (row.getD col ""))) := by
  intro cols
  induction cols with
  | nil => intro j e h; simp [mkWeekAux] at h
  | cons c cs ih =>
    intro j e h
    simp only [mkWeekAux] at h
    rcases List.mem_cons.1 h with rfl | h
    · exact ⟨c, rfl⟩
    · exact ih (j + 1) e h

theorem buildDay_nodup (cells : List String) :
    (buildDay cells).free.Nodup ∧ (buildDay cells).sanitary_time.Nodup ∧
      (buildDay cells).sanitary_day.Nodup := by
  refine ⟨dedupFirst_nodup _, dedupFirst_nodup _, dedupFirst_nodup _⟩

/-! ### Sheet selector lemmas -/

theorem sel_mem : ∀ (rs : List (Option WeekSchedule)) (acc : Option WeekSchedule × Int),
    ((rs.foldl selectStep acc).1 = acc.1) ∨
      ∃ w, some w ∈ rs ∧ (rs.foldl selectStep acc).1 = some w := by
  intro rs
  induction rs with
  | nil => intro acc; exact Or.inl rfl
  | cons r rest ih =>
    intro acc
    cases r with
    | none =>
      rcases ih acc with h | ⟨w, hm, he⟩
      · exact Or.inl (by simpa [selectStep] using h)
      · exact Or.inr ⟨w, List.mem_cons_of_mem _ hm, by simpa [selectStep] using he⟩
    | some w0 =>
      by_cases hgt : (sheetScore w0 : Int) > acc.2
      · have hstep : selectStep acc (some w0) = (some w0, (sheetScore w0 : Int)) := by
          simp [selectStep, hgt]
        rcases ih (selectStep acc (some w0)) with h | ⟨w, hm, he⟩
        · refine Or.inr ⟨w0, List.mem_cons_self _ _, ?_⟩
          rw [List.foldl_cons] at *
          rw [h, hstep]
        · exact Or.inr ⟨w, List.mem_cons_of_mem _ hm, by simpa using he⟩
      · have hstep : selectStep acc (some w0) = acc := by
          simp [selectStep, hgt]
        rcases ih (selectStep acc (some w0)) with h | ⟨w, hm, he⟩
        · refine Or.inl ?_
          rw [List.foldl_cons, h, hstep]
        · exact Or.inr ⟨w, List.mem_cons_of_mem _ hm, by simpa using he⟩

theorem sel_none_iff : ∀ (rs : List (Option WeekSchedule)) (acc : Option WeekSchedule × Int),
    (acc.1 = none → acc.2 = -1) →
    (((rs.foldl selectStep acc).1 = none) ↔ (acc.1 = none ∧ ∀ r ∈ rs, r = none)) := by
  intro rs
  induction rs with
  | nil => intro acc _; simp
  | cons r rest ih =>
    intro acc hinv
    cases r with
    | none =>
      rw [List.foldl_cons]
      have : selectStep acc none = acc := rfl
      rw [this, ih acc hinv]
      constructor
      · rintro ⟨h1, h2⟩
        exact ⟨h1, fun r hr => by
          rcases List.mem_cons.1 hr with rfl | hr
          · rfl
          · exact h2 r hr⟩
      · rintro ⟨h1, h2⟩
        exact ⟨h1, fun r hr => h2 r (List.mem_cons_of_mem _ hr)⟩
    | some w0 =>
      rw [List.foldl_cons]
      cases hacc : acc.1 with
      | none =>
        have hneg : (sheetScore w0 : Int) > acc.2 := by
          rw [hinv hacc]
          have : (0 : Int) ≤ (sheetScore w0 : Int) := Int.ofNat_nonneg _
          omega
        have hstep : selectStep acc (some w0) = (some w0, (sheetScore w0 : Int)) := by
          simp [selectStep, hneg]
        rw [hstep, ih _ (by intro h; cases h)]
        constructor
        · rintro ⟨h1, _⟩; cases h1
        · rintro ⟨_, h2⟩
          have := h2 (some w0) (List.mem_cons_self _ _)
          cases this
      | some wacc =>
        have h1 : (selectStep acc (some w0)).1.isSome = true := by
          by_cases hgt : (sheetScore w0 : Int) > acc.2
          · simp [selectStep, hgt]
          · simp [selectStep, hgt, hacc]
        have hval : (selectStep acc (some w0)).1 ≠ none := by
          intro he
          rw [he] at h1
          cases h1
        constructor
        · intro hl
          rw [ih _ (fun h => absurd h hval)] at hl
          exact absurd hl.1 hval
        · rintro ⟨h2, _⟩
          cases h2

/-! ### Whole-workbook lemmas -/

theorem parse_some_src {grids : List (List (List String))} {s : WeekSchedule}
    (h : parse_free_swim_from_xls grids = some s) :
    ∃ g ∈ grids, parseSheet g = some s := by
  unfold parse_free_swim_from_xls at h
  cases hf : ((grids.map parseSheet).foldl selectStep (none, (-1 : Int))).1 with
  | none => rw [hf] at h; cases h
  | some w =>
    rw [hf] at h
    have h2 : (if w = [] then none else some w) = some s := h
    by_cases hw : w = []
    · rw [if_pos hw] at h2; cases h2
    · rw [if_neg hw] at h2
      rcases sel_mem (grids.map parseSheet) (none, (-1 : Int)) with h1 | ⟨w', hm, he⟩
      · rw [hf] at h1; cases h1
      · rw [hf] at he
        have hww : w' = w := (Option.some.inj he).symm
        obtain ⟨g, hg, hgs⟩ := List.mem_map.1 hm
        refine ⟨g, hg, ?_⟩
        rw [hgs, hww]
        exact h2

/-! ### Claim theorems -/

/-- C1 (counterexample): the claim says that when every sheet produces a
`WeekSchedule` in which every day's three sequences are all empty, the
call must fail with `ParseFailure`. On the one-sheet workbook
`[gridEmptyDays]` every day's three sequences are all empty, yet
`parse_free_swim_from_xls` returns the schedule instead of failing:
a sheet with a located date-header row is retained with score 0, which
beats the initial `best_score = -1`. -/
theorem C1_counterexample :
    parse_free_swim_from_xls [gridEmptyDays] = some weekEmptyDays ∧
      ∀ e ∈ weekEmptyDays,
        e.2.free = [] ∧ e.2.sanitary_time = [] ∧ e.2.sanitary_day = [] := by
  constructor
  · decide
  · decide

/-- C1 (amended): `parse_free_swim_from_xls` fails (returns `none`,
modelling the `RuntimeError`) if and only if every sheet in the workbook
fails to locate a date-header row. In particular a sheet that locates a
date-header row yields a returned `WeekSchedule` even when every day's
three sequences are all empty, and whenever at least one sheet yields at
least one populated day a `WeekSchedule` is returned. -/
theorem C1_parse_failure_iff_no_header (grids : List (List (List String))) :
    parse_free_swim_from_xls grids = none ↔ ∀ g ∈ grids, findDateRow g = none := by
  constructor
  · intro h g hg
    cases hf : findDateRow g with
    | none => rfl
    | some i =>
      exfalso
      have hps := parseSheet_of_header hf
      unfold parse_free_swim_from_xls at h
      cases hb : ((grids.map parseSheet).foldl selectStep (none, (-1 : Int))).1 with
      | none =>
        have hiff := sel_none_iff (grids.map parseSheet) (none, (-1 : Int)) (fun _ => rfl)
        have hall := (hiff.1 hb).2
        have hcon := hall (parseSheet g) (List.mem_map_of_mem _ hg)
        rw [hps] at hcon
        cases hcon
      | some w =>
        rw [hb] at h
        have h2 : (if w = [] then none else some w) = none := h
        by_cases hw : w = []
        · subst hw
          rcases sel_mem (grids.map parseSheet) (none, (-1 : Int)) with h1 | ⟨w', hm, he⟩
          · rw [hb] at h1; cases h1
          · rw [hb] at he
            have hww : w' = [] := (Option.some.inj he).symm
            subst hww
            obtain ⟨g', _, hgs⟩ := List.mem_map.1 hm
            exact parseSheet_some_ne_nil hgs rfl
        · rw [if_neg hw] at h2; cases h2
  · intro hall
    have hnone : ∀ r ∈ grids.map parseSheet, r = none := by
      intro r hr
      obtain ⟨g, hg, rfl⟩ := List.mem_map.1 hr
      exact (parseSheet_none_iff g).2 (hall g hg)
    have hiff := sel_none_iff (grids.map parseSheet) (none, (-1 : Int)) (fun _ => rfl)
    have hb : ((grids.map parseSheet).foldl selectStep (none, (-1 : Int))).1 = none :=
      hiff.2 ⟨rfl, hnone⟩
    unfold parse_free_swim_from_xls
    rw [hb]

/-- C1 (witness): the amended theorem applied to the one-sheet workbook
with no date-header row: parsing fails. -/
theorem C1_witness : parse_free_swim_from_xls [gridNoHeader] = none :=
  (C1_parse_failure_iff_no_header [gridNoHeader]).mpr (by decide)

/-- C6: the Date-Header Locator returns the index of the first row,
among at most the first 60 rows, with at least 3 date-pattern cells; a
sheet with no such row is skipped entirely; the day columns are exactly
the (left-to-right sorted) column indices whose cell matches the date
pattern, and only the first 7 are used. -/
theorem C6_date_header_locator (g : List (List String)) :
    (∀ i, findDateRow g = some i →
      i < g.length ∧ i < 60 ∧ 3 ≤ rowHits (g.getD i []) ∧
        ∀ j, j < i → rowHits (g.getD j []) < 3) ∧
    (findDateRow g = none → ∀ i, i < g.length → i < 60 → rowHits (g.getD i []) < 3) ∧
    (findDateRow g = none → parseSheet g = none) ∧
    (∀ w, parseSheet g = some w → w.length ≤ 7) ∧
    (∀ i, findDateRow g = some i →
      parseSheet g = some (mkWeek ((g.getD i []).map norm)
        ((idxWhere isDateCell ((g.getD i []).map norm)).take 7) (g.drop (i + 1)))) ∧
    (∀ (r : List String) (k : Nat),
      (k ∈ idxWhere isDateCell r ↔ k < r.length ∧ isDateCell (r.getD k "") = true) ∧
        List.Pairwise (· < ·) (idxWhere isDateCell r)) := by
  refine ⟨?_, ?_, ?_, ?_, ?_, ?_⟩
  · intro i hi
    obtain ⟨j, hk, hj, hb, hhit, hprev⟩ := findDateRowAux_some g 0 i hi
    have hij : j = i := by omega
    subst hij
    exact ⟨hj, hb, hhit, fun m hm => hprev m hm⟩
  · intro hn i hil hib
    simpa using findDateRowAux_none g 0 hn i hil (by omega)
  · intro hn
    exact (parseSheet_none_iff g).2 hn
  · intro w hw
    exact parseSheet_len_le hw
  · intro i hi
    exact parseSheet_of_header hi
  · intro r k
    constructor
    · rw [idxWhere]
      rw [mem_idxWhereAux]
      constructor
      · rintro ⟨j, rfl, hj, hp⟩
        simp only [Nat.zero_add]
        exact ⟨hj, hp⟩
      · rintro ⟨hk, hp⟩
        exact ⟨k, by omega, hk, hp⟩
    · exact idxWhereAux_sorted isDateCell r 0

/-- C6 (witness): the locator theorem applied to a sheet whose row 0 is
a date header, and to a sheet with no date-header row. -/
theorem C6_witness :
    (0 < gridEmptyDays.length ∧ 0 < 60 ∧ 3 ≤ rowHits (gridEmptyDays.getD 0 []) ∧
      ∀ j, j < 0 → rowHits (gridEmptyDays.getD j []) < 3) ∧
    parseSheet gridNoHeader = none := by
  constructor
  · exact (C6_date_header_locator gridEmptyDays).1 0 (by decide)
  · exact (C6_date_header_locator gridNoHeader).2.2.1 (by decide)

/-- C4: every cell whose text contains "семейное" (case-insensitively,
i.e. after lowering) is skipped entirely by the Column Classifier: the
state and the three accumulated sequences are exactly what they were
before the cell. -/
theorem C4_family_skip (st : Option Mode × DaySched) (c : String)
    (h : hasSub kwFam (lowerStr c) = true) : classifyStep st c = st := by
  by_cases hc : c = ""
  · subst hc
    exact absurd h (by decide)
  · unfold classifyStep
    rw [if_neg hc]
    exact if_pos h

/-- C4 (witness): an uppercase family cell with an inline time leaves a
nonempty classifier state completely unchanged. -/
theorem C4_witness :
    classifyStep (some Mode.free, schedX) famCell = (some Mode.free, schedX) :=
  C4_family_skip (some Mode.free, schedX) famCell (by decide)

/-- C3 (counterexample): the claim quantifies over every non-empty cell
containing both "санитарный день" and "санитар"; a cell that also
contains "семейное" is skipped by rule 1 instead, so the state does not
become `SANITARY_DAY` and its inline time range is not emitted. -/
theorem C3_counterexample :
    hasSub kwSanDay (lowerStr sanDayFamCell) = true ∧
    hasSub kwSan (lowerStr sanDayFamCell) = true ∧
    sanDayFamCell ≠ "" ∧
    classifyStep (none, emptySched) sanDayFamCell = (none, emptySched) := by
  refine ⟨by decide, by decide, by decide, by decide⟩

/-- C3 (amended): for every non-empty cell that contains both
"санитарный день" and "санитар" and does not contain "семейное", rule 2
precedes rule 3: the state becomes `SANITARY_DAY` (not `SANITARY_TIME`),
the free and sanitary-time sequences are untouched, and an inline time
range, when present, is emitted into the sanitary-day sequence. -/
theorem C3_sanitary_day_precedence (st : Option Mode × DaySched) (c : String)
    (hne : c ≠ "")
    (hfam : hasSub kwFam (lowerStr c) = false)
    (hsd : hasSub kwSanDay (lowerStr c) = true)
    (hs : hasSub kwSan (lowerStr c) = true) :
    (classifyStep st c).1 = some Mode.sanitaryDay ∧
    (classifyStep st c).2.free = st.2.free ∧
    (classifyStep st c).2.sanitary_time = st.2.sanitary_time ∧
    (classifyStep st c).2.sanitary_day =
      st.2.sanitary_day ++ (match extractTime c.data with
        | some g => [norm ⟨g⟩]
        | none => []) := by
  have h1 : classifyStep st c = (some Mode.sanitaryDay, inlineEmit st.2 Mode.sanitaryDay c) := by
    unfold classifyStep
    rw [if_neg hne]
    simp only [hfam, hsd, Bool.false_eq_true, if_false, if_true]
  rw [h1]
  cases hext : extractTime c.data with
  | none => simp [inlineEmit, hext, pushMode]
  | some g => simp [inlineEmit, hext, pushMode]

/-- C3 (witness): the amended theorem applied to a sanitary-day cell
with an inline time range. -/
theorem C3_witness :
    (classifyStep (none, emptySched) sanDayCell).1 = some Mode.sanitaryDay ∧
    (classifyStep (none, emptySched) sanDayCell).2.free = emptySched.free ∧
    (classifyStep (none, emptySched) sanDayCell).2.sanitary_time = emptySched.sanitary_time ∧
    (classifyStep (none, emptySched) sanDayCell).2.sanitary_day =
      emptySched.sanitary_day ++ (match extractTime sanDayCell.data with
        | some g => [norm ⟨g⟩]
        | none => []) :=
  C3_sanitary_day_precedence (none, emptySched) sanDayCell (by decide) (by decide)
    (by decide) (by decide)

/-- C5: every sequence of every day of a returned `WeekSchedule` is
duplicate-free; the deduplication keeps a subsequence of the raw
emissions (so first-occurrence order is preserved), a second occurrence
of the same TimeRange changes nothing beyond the first (which, with
`t ∉ pre`, is at its first position), and the duplicated entry appears
exactly once. -/
theorem C5_no_duplicates :
    (∀ (grids : List (List (List String))) (s : WeekSchedule),
      parse_free_swim_from_xls grids = some s →
      ∀ e ∈ s, e.2.free.Nodup ∧ e.2.sanitary_time.Nodup ∧ e.2.sanitary_day.Nodup) ∧
    (∀ l : List String, List.Sublist (dedupFirst l) l) ∧
    (∀ (pre mid post : List String) (t : String), t ∉ pre →
      dedupFirst (pre ++ t :: mid ++ t :: post) = dedupFirst (pre ++ t :: (mid ++ post))) ∧
    (∀ (pre mid post : List String) (t : String),
      List.count t (dedupFirst (pre ++ t :: mid ++ t :: post)) = 1) := by
  refine ⟨?_, ?_, ?_, ?_⟩
  · intro grids s hp e he
    obtain ⟨g, _, hgs⟩ := parse_some_src hp
    cases hf : findDateRow g with
    | none => rw [(parseSheet_none_iff g).2 hf] at hgs; cases hgs
    | some i =>
      rw [parseSheet_of_header hf] at hgs
      have hs := Option.some.inj hgs
      rw [← hs] at he
      rw [mkWeek] at he
      obtain ⟨col, hcol⟩ := mem_mkWeekAux _ _ _ 0 e he
      rw [hcol]
      exact buildDay_nodup _
  · intro l
    exact dedupGo_sublist l []
  · intro pre mid post t _
    have hmem : t ∈ pre ++ t :: mid := List.mem_append_right pre (List.mem_cons_self t mid)
    have := dedupGo_dup_drop (pre ++ t :: mid) [] post t (Or.inr hmem)
    rw [dedupFirst, dedupFirst]
    calc dedupGo [] (pre ++ t :: mid ++ t :: post)
        = dedupGo [] ((pre ++ t :: mid) ++ t :: post) := by simp
      _ = dedupGo [] ((pre ++ t :: mid) ++ post) := this
      _ = dedupGo [] (pre ++ t :: (mid ++ post)) := by simp
  · intro pre mid post t
    have hnd : (dedupFirst (pre ++ t :: mid ++ t :: post)).Nodup := dedupFirst_nodup _
    have hmem : t ∈ dedupFirst (pre ++ t :: mid ++ t :: post) := by
      rw [dedupFirst, mem_dedupGo]
      exact ⟨by simp, by simp⟩
    exact List.count_eq_one_of_mem hnd hmem

/-- C5 (witness): the no-duplicates theorem applied to the concrete
five-day workbook and to a concrete duplicated column. -/
theorem C5_witness :
    (("Понедельник – 2 марта",
        (⟨["с 19:00 до 22:00"], [], []⟩ : DaySched)).2.free.Nodup ∧
      ("Понедельник – 2 марта",
        (⟨["с 19:00 до 22:00"], [], []⟩ : DaySched)).2.sanitary_time.Nodup ∧
      ("Понедельник – 2 марта",
        (⟨["с 19:00 до 22:00"], [], []⟩ : DaySched)).2.sanitary_day.Nodup) ∧
    dedupFirst (["а"] ++ "б" :: ["в"] ++ "б" :: ["г"]) =
      dedupFirst (["а"] ++ "б" :: (["в"] ++ ["г"])) := by
  constructor
  · exact C5_no_duplicates.1 [gridFive] weekFive (by decide) _ (by decide)
  · exact C5_no_duplicates.2.2.1 ["а"] ["в"] ["г"] "б" (by decide)

/-- C7: the Evening Filter retains an entry iff a start hour can be
extracted from its first time occurrence and that hour is at least the
threshold; unparseable entries are dropped (the function is total, no
error); the output is a sublist of the input, so relative order is
preserved and the input itself is untouched; `_filter_evening` is the
instance at `EVENING_FROM_HOUR`. -/
theorem C7_evening_filter (thr : Nat) (l : List String) :
    (∀ t, t ∈ filterEveningAt thr l ↔
      t ∈ l ∧ ∃ h, start_hour_from_time_line t = some h ∧ thr ≤ h) ∧
    List.Sublist (filterEveningAt thr l) l ∧
    filter_evening l = filterEveningAt EVENING_FROM_HOUR l := by
  refine ⟨?_, ?_, rfl⟩
  · intro t
    rw [filterEveningAt_eq_filter, List.mem_filter]
    constructor
    · rintro ⟨hm, hk⟩
      refine ⟨hm, ?_⟩
      unfold keepEvening at hk
      cases hsh : start_hour_from_time_line t with
      | none => rw [hsh] at hk; cases hk
      | some h => rw [hsh] at hk; exact ⟨h, rfl, by simpa using hk⟩
    · rintro ⟨hm, h, hsh, hth⟩
      refine ⟨hm, ?_⟩
      unfold keepEvening
      rw [hsh]
      simpa using hth
  · rw [filterEveningAt_eq_filter]
    exact List.filter_sublist l

/-- C7 (witness): the filter theorem applied at threshold 18 to a
single evening time line, which is retained. -/
theorem C7_witness : timeLine2015 ∈ filterEveningAt 18 [timeLine2015] :=
  ((C7_evening_filter 18 [timeLine2015]).1 timeLine2015).mpr
    ⟨by decide, 20, by decide, by decide⟩

/-- C8: the Evening Filter is idempotent on whole schedules: applying
it twice at the same threshold equals applying it once. -/
theorem C8_filter_idempotent (thr : Nat) (w : WeekSchedule) :
    filterEveningSched thr (filterEveningSched thr w) = filterEveningSched thr w := by
  unfold filterEveningSched
  rw [List.map_map]
  refine List.map_congr_left ?_
  intro kv _
  simp [Function.comp, filterEveningAt_idem]

/-- C9: on a workbook of two sheets whose parses score 5 and 3, the
selector returns the sheet scoring 5, for either iteration order of the
sheets (strictly-greater replacement, ties keep the first seen). -/
theorem C9_best_sheet (g1 g2 : List (List String)) (A B : WeekSchedule)
    (h1 : parseSheet g1 = some A) (h2 : parseSheet g2 = some B)
    (hA : sheetScore A = 5) (hB : sheetScore B = 3) :
    parse_free_swim_from_xls [g1, g2] = some A ∧
      parse_free_swim_from_xls [g2, g1] = some A := by
  have hAne : A ≠ [] := parseSheet_some_ne_nil h1
  have s1 : selectStep (none, (-1 : Int)) (some A) = (some A, (5 : Int)) := by
    simp [selectStep, hA]
  have s2 : selectStep (some A, (5 : Int)) (some B) = (some A, (5 : Int)) := by
    simp [selectStep, hB]
  have s3 : selectStep (none, (-1 : Int)) (some B) = (some B, (3 : Int)) := by
    simp [selectStep, hB]
  have s4 : selectStep (some B, (3 : Int)) (some A) = (some A, (5 : Int)) := by
    simp [selectStep, hA]
  constructor
  · have hfold : (([g1, g2].map parseSheet).foldl selectStep (none, (-1 : Int))).1 = some A := by
      simp only [List.map_cons, List.map_nil, h1, h2, List.foldl_cons, List.foldl_nil, s1, s2]
    unfold parse_free_swim_from_xls
    rw [hfold]
    exact if_neg hAne
  · have hfold : (([g2, g1].map parseSheet).foldl selectStep (none, (-1 : Int))).1 = some A := by
      simp only [List.map_cons, List.map_nil, h1, h2, List.foldl_cons, List.foldl_nil, s3, s4]
    unfold parse_free_swim_from_xls
    rw [hfold]
    exact if_neg hAne

/-- C9 (witness): the selector theorem applied to the concrete workbook
with a five-day sheet and a three-day sheet. -/
theorem C9_witness :
    parse_free_swim_from_xls [gridFive, gridThree] = some weekFive ∧
      parse_free_swim_from_xls [gridThree, gridFive] = some weekFive :=
  C9_best_sheet gridFive gridThree weekFive weekThree (by decide) (by decide)
    (by decide) (by decide)

/-- C2 (counterexample): the claim says a single-digit start hour is
zero-padded also for time ranges taken inline from marker cells (rules
2-4). A free-swim marker cell with the inline range "с 8:00 до 9:00"
emits it unpadded: only rule 5 applies the padding substitution. -/
theorem C2_counterexample :
    buildDay [freeInlineCell] = ⟨["с 8:00 до 9:00"], [], []⟩ ∧
      ("с 8:00 до 9:00" : String) ≠ ("с 08:00 до 9:00" : String) := by
  constructor
  · decide
  · decide

/-- C2 (amended): a normalized standalone time-line cell of the shape
`с D:MM` processed under an active category (rule 5) is emitted with the
single-digit hour zero-padded to `с 0D:MM`; a time range extracted
inline from a marker cell (rules 2-4) is emitted without padding. -/
theorem C2_hour_padding (m : Mode) (sched : DaySched) (d a b : Char)
    (hd : isDig d = true) (ha : isDig a = true) (hb : isDig b = true) :
    classifyStep (some m, sched) ⟨['с', ' ', d, ':', a, b]⟩ =
      (some m, pushMode sched m ⟨['с', ' ', '0', d, ':', a, b]⟩) ∧
    (classifyStep (none, emptySched) freeInlineCell).2.free = ["с 8:00 до 9:00"] := by
  constructor
  · have hd1 := isDig_ne_of hd (by decide : isDig 'с' = false)
    have ha1 := isDig_ne_of ha (by decide : isDig 'с' = false)
    have hb1 := isDig_ne_of hb (by decide : isDig 'с' = false)
    have hd2 := isDig_ne_of hd (by decide : isDig 'С' = false)
    have ha2 := isDig_ne_of ha (by decide : isDig 'С' = false)
    have hb2 := isDig_ne_of hb (by decide : isDig 'С' = false)
    simp [classifyStep, lowerStr, hasSub, kwFam, kwSanDay, kwSan, kwFree,
      subMatch, leadMatch, timePatSearch, timeTail, extractTime, norm, stripWs,
      dotFix, collapseWs, padFixStr, padFix, padFuel, padAfter, inlineEmit,
      ruLower_sl, ruLower_sp, ruLower_co, isWsC_sp, isWsC_sl, isWsC_co,
      isDig_sl, isDig_sp, isDig_co, isWordC_sl, isWordC_sp, isWordC_co,
      nbsp_sl, nbsp_sp, nbsp_co, mkStr_ne_nil,
      isDig_ruLower hd, isDig_ruLower ha, isDig_ruLower hb,
      isDig_nbsp hd, isDig_nbsp ha, isDig_nbsp hb,
      isDig_notWs hd, isDig_notWs ha, isDig_notWs hb,
      hd, ha, hb, hd1, ha1, hb1, hd2, ha2, hb2]
  · decide

/-- C2 (witness): the padding theorem applied to the time-line cell
"с 8:30" under the free category. -/
theorem C2_witness :
    classifyStep (some Mode.free, emptySched) ⟨['с', ' ', '8', ':', '3', '0']⟩ =
      (some Mode.free, pushMode emptySched Mode.free ⟨['с', ' ', '0', '8', ':', '3', '0']⟩) ∧
    (classifyStep (none, emptySched) freeInlineCell).2.free = ["с 8:00 до 9:00"] :=
  C2_hour_padding Mode.free emptySched '8' '3' '0' (by decide) (by decide) (by decide)

/-- C10: `_start_hour_from_time_line` performs no range validation on
the extracted start hour: on "с 99:00 до 23:00" it returns 99, the line
is retained by `_filter_evening`, the extraction returns the two-digit
value for any digit pair, and any entry whose extracted hour reaches the
threshold is retained. -/
theorem C10_no_hour_range_check :
    start_hour_from_time_line timeLine99 = some 99 ∧
    filter_evening [timeLine99] = [timeLine99] ∧
    (∀ c1 c2 : Char, isDig c1 = true → isDig c2 = true →
      start_hour_from_time_line ⟨['с', ' ', c1, c2, ':', '0', '0']⟩ =
        some ((c1.toNat - 48) * 10 + (c2.toNat - 48))) ∧
    (∀ (thr : Nat) (l : List String) (t : String) (h : Nat),
      t ∈ l → start_hour_from_time_line t = some h → thr ≤ h →
      t ∈ filterEveningAt thr l) := by
  refine ⟨by decide, by decide, ?_, ?_⟩
  · intro c1 c2 h1 h2
    have h1s := isDig_ne_of h1 (by decide : isDig 'с' = false)
    have h2s := isDig_ne_of h2 (by decide : isDig 'с' = false)
    have h1S := isDig_ne_of h1 (by decide : isDig 'С' = false)
    have h2S := isDig_ne_of h2 (by decide : isDig 'С' = false)
    simp [start_hour_from_time_line, startHourGo, hourTail, digitsVal,
      isWsC_sp, isWsC_co, isDig_co,
      (by decide : isWsC ('0' : Char) = false), (by decide : isDig ('0' : Char) = true),
      isDig_notWs h1, isDig_notWs h2, h1, h2, h1s, h2s, h1S, h2S]
  · intro thr l t h hm hsh hth
    rw [filterEveningAt_eq_filter, List.mem_filter]
    refine ⟨hm, ?_⟩
    unfold keepEvening
    rw [hsh]
    simpa using hth

/-- C10 (witness): the no-range-check theorem applied at the digit pair
9,9 and to the retention of the 99-hour line at threshold 18. -/
theorem C10_witness :
    start_hour_from_time_line ⟨['с', ' ', '9', '9', ':', '0', '0']⟩ =
      some (('9'.toNat - 48) * 10 + ('9'.toNat - 48)) ∧
    timeLine99 ∈ filterEveningAt 18 [timeLine99] :=
  ⟨C10_no_hour_range_check.2.2.1 '9' '9' (by decide) (by decide),
   C10_no_hour_range_check.2.2.2 18 [timeLine99] timeLine99 99 (by decide) (by decide)
     (by decide)⟩

end ArnoldPool
